import Mathlib

/-!
Shallow embedding of `weblate/addons/gettext.py`: the gettext add-on
synchronization and orchestration algorithms (LINGUAS reconciliation,
`ALL_LINGUAS` rewriting in configure files, POT-file comparison, the
xgettext POT-regeneration orchestrator, and the msgmerge batch loop).

Python strings are modelled as `List Char`; Python sets of strings as
`Finset (List Char)`.  All functions are executable.
-/

/-- Python strings modelled as lists of characters. -/
abbrev PyStr := List Char

/-- A line of a text file (normally including its trailing newline). -/
abbrev Line := PyStr

/-- A language code string. -/
abbrev Code := PyStr

/-- A file-system path string. -/
abbrev FPath := PyStr

/-- A text file as the list of lines `readlines()` would produce. -/
abbrev TextFile := List Line

/-- Shorthand for turning a Lean string literal into the `List Char` model. -/
def pys (s : String) : PyStr := s.toList

/-- The whitespace characters stripped by Python `str.strip()` (ASCII part). -/
def pyIsSpace (c : Char) : Bool :=
  c = ' ' || c = '\t' || c = '\n' || c = '\r' || c = '\x0b' || c = '\x0c'

/-- Python `str.lstrip()`. -/
def lstrip (l : PyStr) : PyStr := l.dropWhile pyIsSpace

/-- Python `str.rstrip()`. -/
def rstrip (l : PyStr) : PyStr := (l.reverse.dropWhile pyIsSpace).reverse

/-- Python `str.strip()`. -/
def pyStrip (l : PyStr) : PyStr := rstrip (lstrip l)

/-- Python `str.rstrip(chars)`: drop trailing characters belonging to `cs`. -/
def rstripChars (cs : List Char) (l : PyStr) : PyStr :=
  (l.reverse.dropWhile (fun c => cs.contains c)).reverse

/-- `line.split("#", 1)[0]`: the part of the line before the first `#`. -/
def splitHash : PyStr → PyStr
  | [] => []
  | c :: cs => if c = '#' then [] else c :: splitHash cs

/-- `line.split("#", 1)[0].strip()` as used by `update_linguas`. -/
def strippedLine (l : Line) : PyStr := pyStrip (splitHash l)

/-- Python `" " in s`. -/
def containsSpace (l : PyStr) : Bool := l.any (· = ' ')

/-- Python `s.startswith(p)`. -/
def startsWithChars : PyStr → PyStr → Bool
  | [], _ => true
  | _ :: _, [] => false
  | p :: ps, c :: cs => p = c && startsWithChars ps cs

/-- Python `s.endswith(p)`. -/
def endsWithChars (p s : PyStr) : Bool := startsWithChars p.reverse s.reverse

/-- Python `" ".join(xs)`. -/
def joinSpaces : List PyStr → PyStr
  | [] => []
  | [c] => c
  | c :: cs => c ++ ' ' :: joinSpaces cs

namespace UpdateLinguasAddon

/-- Python `sorted(codes)` for a set of strings: lexicographic sort.
Implemented with `List.insertionSort` (structurally recursive, so concrete
instances evaluate inside the kernel); the result does not depend on the
multiset representative because sorted permutations are equal. -/
def sortedCodes (codes : Finset Code) : List Code :=
  Quot.liftOn codes.1 (fun l => l.insertionSort (· ≤ ·)) (fun l₁ l₂ h =>
    List.eq_of_perm_of_sorted
      ((List.perm_insertionSort _ l₁).trans ((Quotient.exact (Quotient.sound h)).trans
        (List.perm_insertionSort _ l₂).symm))
      (List.sorted_insertionSort _ l₁) (List.sorted_insertionSort _ l₂))

/-- `" ".join(sorted(codes))`, the expected legacy single-line content. -/
def expectedJoin (codes : Finset Code) : Line := joinSpaces (sortedCodes codes)

/-- State produced by the `for i, line in enumerate(lines)` scan of
`update_linguas`: the surviving lines (deletions applied, the legacy line
replaced where applicable), the desired codes not yet represented, whether
the `remove` list was non-empty, and whether the legacy line was replaced. -/
structure ScanOut where
  kept : List Line
  codesLeft : Finset Code
  removed : Bool
  replaced : Bool
deriving DecidableEq

/-- The scan loop of `UpdateLinguasAddon.update_linguas`
(src/weblate/addons/gettext.py lines 101-125): comment/blank lines are kept,
a line whose stripped token contains a space is the legacy single-line record
(replaced by the sorted join if different, then the loop breaks with the code
set emptied), a token still desired is consumed, any other token line is
deleted. -/
def scanLines : List Line → Finset Code → ScanOut
  | [], codes => ⟨[], codes, false, false⟩
  | l :: rest, codes =>
    let s := strippedLine l
    if s = [] then
      let r := scanLines rest codes
      ⟨l :: r.kept, r.codesLeft, r.removed, r.replaced⟩
    else if containsSpace s then
      let e := expectedJoin codes
      if s = e then ⟨l :: rest, ∅, false, false⟩
      else ⟨(e ++ ['\n']) :: rest, ∅, false, true⟩
    else if s ∈ codes then
      let r := scanLines rest (codes.erase s)
      ⟨l :: r.kept, r.codesLeft, r.removed, r.replaced⟩
    else
      let r := scanLines rest codes
      ⟨r.kept, r.codesLeft, true, r.replaced⟩

/-- `UpdateLinguasAddon.update_linguas(lines, codes)`
(src/weblate/addons/gettext.py lines 96-132).  Returns `(changed, lines)`.
The trailing `lines.extend(f"{code}\n" for code in codes)` iterates a Python
set in unspecified order; the embedding appends in sorted order, one
deterministic realization of that order. -/
def update_linguas (lines : List Line) (codes : Finset Code) :
    Bool × List Line :=
  let r := scanLines lines codes
  let appended := (sortedCodes r.codesLeft).map (fun c => c ++ ['\n'])
  (r.replaced || r.removed || !(r.codesLeft = ∅ : Bool), r.kept ++ appended)

end UpdateLinguasAddon

/-- An alert record as appended to `self.alerts` (addon name omitted; it is
the same constant for every alert of one addon). -/
structure Alert where
  command : PyStr
  output : PyStr
  error : PyStr
deriving DecidableEq

namespace UpdateConfigureAddon

/-- The literal prefix `ALL_LINGUAS="` tested by `sync_linguas`. -/
def allLinguasMarker : PyStr := pys "ALL_LINGUAS=\""

/-- The expected assignment line `ALL_LINGUAS="<codes>"\n`, with the codes
joined by single spaces.  The code list comes from the translation registry
already ordered by language code (`order_by("language_code")`). -/
def mkExpected (codes : List Code) : Line :=
  allLinguasMarker ++ joinSpaces codes ++ pys "\"\n"

/-- The inner per-file loop of `UpdateConfigureAddon.sync_linguas`
(src/weblate/addons/gettext.py lines 207-216): comment lines and lines not
starting (after stripping) with `ALL_LINGUAS="` are kept; a matching line
different from `expected` is replaced and the change flag raised. -/
def syncLinesConf (expected : Line) : TextFile → TextFile × Bool
  | [] => ([], false)
  | l :: ls =>
    let r := syncLinesConf expected ls
    let s := pyStrip l
    if startsWithChars (pys "#") s then (l :: r.1, r.2)
    else if !startsWithChars allLinguasMarker s then (l :: r.1, r.2)
    else if l ≠ expected then (expected :: r.1, true)
    else (l :: r.1, r.2)

/-- Result for one candidate configure file: its on-disk content after the
run and whether a write-back of that file happened. -/
structure ConfFileResult where
  content : TextFile
  written : Bool
deriving DecidableEq

/-- The outer loop of `UpdateConfigureAddon.sync_linguas`
(src/weblate/addons/gettext.py lines 195-222).  `added` is the accumulated
change flag: it is never reset between files, and each file is written back
when the flag is set at that point (`if added:` after the per-file loop). -/
def syncFilesConf (expected : Line) (added : Bool) :
    List TextFile → List ConfFileResult × Bool
  | [] => ([], added)
  | f :: fs =>
    let r := syncLinesConf expected f
    let nowAdded := added || r.2
    let rest := syncFilesConf expected nowAdded fs
    (⟨if nowAdded then r.1 else f, nowAdded⟩ :: rest.1, rest.2)

/-- `UpdateConfigureAddon.sync_linguas` over the candidate files, returning
the per-file results and the final `added` flag (the function's return
value). -/
def sync_linguas (codes : List Code) (files : List TextFile) :
    List ConfFileResult × Bool :=
  syncFilesConf (mkExpected codes) false files

end UpdateConfigureAddon

namespace XGettextAddon

/-- The literal `"POT-Creation-Date: ` (leading double quote included). -/
def potHeader : PyStr := pys "\"POT-Creation-Date: "

/-- The literal suffix: backslash, `n`, double quote, newline. -/
def potTail : PyStr := pys "\\n\"\n"

/-- `XGettextAddon.is_pot_creation_date` (src/weblate/addons/gettext.py
lines 440-444): `None` is not a POT-Creation-Date line; otherwise the line
must start with `"POT-Creation-Date: ` and end with `\n"` plus newline. -/
def is_pot_creation_date : Option Line → Bool
  | none => false
  | some l => startsWithChars potHeader l && endsWithChars potTail l

/-- `itertools.zip_longest` over two line sequences, missing entries as
`none`. -/
def zipLongest : List α → List α → List (Option α × Option α)
  | [], bs => bs.map fun b => (none, some b)
  | a :: as, [] => (some a, none) :: zipLongest as []
  | a :: as, b :: bs => (some a, some b) :: zipLongest as bs

/-- `XGettextAddon.pot_files_same` (src/weblate/addons/gettext.py lines
446-455): line-by-line comparison over the zip-longest of the two files; a
mismatching pair is tolerated only when both sides are POT-Creation-Date
lines. -/
def pot_files_same (a b : TextFile) : Bool :=
  (zipLongest a b).all fun p =>
    p.1 = p.2 || (is_pot_creation_date p.1 && is_pot_creation_date p.2)

/-- `XGettextAddon.load_file_list` (src/weblate/addons/gettext.py lines
429-438): keep non-empty lines not starting with `#`, strip all trailing
newlines, then all trailing spaces/tabs/carriage returns. -/
def load_file_list (manifest : TextFile) : List FPath :=
  manifest.filterMap fun line =>
    if line = [] then none
    else if startsWithChars (pys "#") line then none
    else some (rstripChars (pys " \t\r") (rstripChars (pys "\n") line))

/-- `posixpath.dirname`: everything up to the last `/`, with trailing
slashes stripped unless the head is all slashes. -/
def dirname (p : FPath) : FPath :=
  let head := (p.reverse.dropWhile (· ≠ '/')).reverse
  if head = [] then head
  else if head.all (· = '/') then head
  else (head.reverse.dropWhile (· = '/')).reverse

/-- `posixpath.join` for two components, as used for
`os.path.join(directory, input_path)`. -/
def joinPath (d p : FPath) : FPath :=
  if startsWithChars (pys "/") p then p
  else if d = [] then p
  else if endsWithChars (pys "/") d then d ++ p
  else d ++ '/' :: p

/-- Inputs of one `XGettextAddon.post_update` run.  File-system state,
repository answers, and the external collaborators (`cleanup_path`,
`resolve_symlinks`, `execute_process`) are supplied as environment fields:
`toolAlerts` is the alert list `execute_process` leaves in `self.alerts`
(per the spec's ExternalToolRunner contract, failures are recorded there,
never raised), and `toolOutputContent` is what the tool wrote to the
temporary file. -/
structure XgEnv where
  output : FPath
  filesFrom : Option FPath
  filesFromExists : Bool
  manifest : TextFile
  configDirectory : PyStr
  cleanup : FPath → FPath
  previousHead : Bool
  hasPendingAlert : Bool
  changedFiles : Finset FPath
  resolveOk : FPath → Bool
  symlinkError : PyStr
  toolAlerts : List Alert
  outputExists : Bool
  outputContent : TextFile
  toolOutputContent : TextFile

/-- `XGettextAddon.get_directory`: the configured directory, `""` when the
configuration value is `"."`. -/
def get_directory (env : XgEnv) : PyStr :=
  if env.configDirectory = pys "." then [] else env.configDirectory

/-- The `repo_files` set computed by `post_update` (src/weblate/addons/
gettext.py lines 476-479). -/
def repoFiles (env : XgEnv) : Finset FPath :=
  ((load_file_list env.manifest).map
    (fun p => env.cleanup (joinPath (get_directory env) p))).toFinset

/-- Observable outcome of one `post_update` run.  `finalContent` is the
content at the final template path after the run (`none` when the file does
not exist), `tmpDir` the directory the temporary output file was created in
(`[]` when the tool stage was never reached), and `skipLog` the
`log_info` skip message, which identifies the exit path taken. -/
structure XgOutcome where
  alerts : List Alert
  triggered : Bool
  ranTool : Bool
  replaced : Bool
  committed : Bool
  finalContent : Option TextFile
  tmpDir : FPath
  skipLog : Option PyStr
deriving DecidableEq

/-- Log tag of the missing-manifest exit. -/
def manifestMissingLog : PyStr := pys "input file list not found"

/-- Log tag of the change-gate skip. -/
def gateSkipLog : PyStr := pys "input files not updated"

/-- Log tag of the invalid-manifest (symlink resolution) exit. -/
def invalidListLog : PyStr := pys "input file list is invalid"

/-- Log tag of the no-material-difference exit. -/
def noUpdatesLog : PyStr := pys "no updates"

/-- Template-path content before the run. -/
def originalFinal (env : XgEnv) : Option TextFile :=
  if env.outputExists then some env.outputContent else none

/-- The alert emitted when the POTFILES.in manifest is absent. -/
def manifestMissingAlert (env : XgEnv) : Alert :=
  ⟨pys "xgettext", env.output, pys "Input list (POTFILES.in) file not found"⟩

/-- `XGettextAddon.post_update` (src/weblate/addons/gettext.py lines
457-527), step for step: missing-manifest alert, then the change gate, then
symlink validation of every manifest entry, then the xgettext run into a
temporary file in `dirname(output)`, then promotion and commit only when
the tool produced no alerts and the result is materially different from the
existing template (or the template does not exist yet). -/
def post_update (env : XgEnv) : XgOutcome :=
  if env.filesFrom = none ∨ env.filesFromExists = false then
    ⟨[manifestMissingAlert env], true, false, false, false,
      originalFinal env, [], some manifestMissingLog⟩
  else
    let rf := repoFiles env
    if env.previousHead = true ∧ env.hasPendingAlert = false ∧
        env.changedFiles ∩ rf = ∅ then
      ⟨[], false, false, false, false, originalFinal env, [], some gateSkipLog⟩
    else if ¬(∀ p ∈ rf, env.resolveOk p = true) then
      ⟨[⟨pys "xgettext", env.output, env.symlinkError⟩], true, false, false,
        false, originalFinal env, [], some invalidListLog⟩
    else if env.toolAlerts ≠ [] then
      ⟨env.toolAlerts, true, true, false, false, originalFinal env,
        dirname env.output, none⟩
    else if env.outputExists = true ∧
        pot_files_same env.toolOutputContent env.outputContent = true then
      ⟨[], false, true, false, false, originalFinal env,
        dirname env.output, some noUpdatesLog⟩
    else
      ⟨[], false, true, true, true, some env.toolOutputContent,
        dirname env.output, none⟩

end XGettextAddon

namespace MsgmergeAddon

/-- The data of an `UpdateError` raised by `update_bilingual`: the failed
command, its captured output, and its message. -/
structure MergeFailure where
  cmd : PyStr
  out : PyStr
  err : PyStr
deriving DecidableEq

/-- One translation of the component, with the collaborator answers the
loop body consults; `mergeError = some f` means the `update_bilingual` call
for this file raises `UpdateError f`, `none` means it succeeds. -/
structure Trans where
  isSource : Bool
  isTemplate : Bool
  filename : Option FPath
  fileExists : Bool
  mergeError : Option MergeFailure
deriving DecidableEq

/-- Inputs of one `MsgmergeAddon.update_translations` run. -/
structure MsgEnv where
  previousHead : Bool
  hasPendingAlert : Bool
  newBase : FPath
  changedFiles : Finset FPath
  template : Option FPath
  templateExists : Bool
  translations : List Trans
deriving DecidableEq

/-- Observable outcome of one `update_translations` run: the alerts
collected, the indices of the translations whose merge was attempted (in
order), whether `trigger_alerts` ran, and the skip log message if any. -/
structure MsgOutcome where
  alerts : List Alert
  attempted : List Nat
  triggered : Bool
  skipLog : Option PyStr
deriving DecidableEq

/-- Log tag of the change-gate skip of the msgmerge addon. -/
def msgGateSkipLog : PyStr := pys "new base was not updated"

/-- Log tag of the missing-template exit of the msgmerge addon. -/
def msgTemplateLog : PyStr := pys "new base was not found"

/-- The skip filter of the per-translation loop (src/weblate/addons/
gettext.py lines 299-304): a source-only translation, a missing filename or
a non-existing file is skipped.  A falsy filename is modelled as `none`. -/
def eligible (t : Trans) : Bool :=
  !(t.isSource && !t.isTemplate) && t.filename.isSome && t.fileExists

/-- The alert payload built from an `UpdateError` (src/weblate/addons/
gettext.py lines 310-317). -/
def failureAlert (f : MergeFailure) : Alert := ⟨f.cmd, f.out, f.err⟩

/-- The per-translation loop (src/weblate/addons/gettext.py lines 297-318):
each eligible translation is attempted; a failure appends one alert and the
loop continues with the next translation. -/
def mergeLoop : List Trans → Nat → List Alert × List Nat
  | [], _ => ([], [])
  | t :: ts, i =>
    let r := mergeLoop ts (i + 1)
    if eligible t then
      match t.mergeError with
      | some f => (failureAlert f :: r.1, i :: r.2)
      | none => (r.1, i :: r.2)
    else r

/-- The alert emitted when the template for new translations is missing. -/
def templateMissingAlert (tp : Option FPath) : Alert :=
  ⟨pys "msgmerge", tp.getD [], pys "Template for new translations not found"⟩

/-- `MsgmergeAddon.update_translations` (src/weblate/addons/gettext.py
lines 267-319): the change gate (`new_base` membership in the changed
files, bypassed when there is no previous head or a pending alert), the
template existence check, then the per-translation merge loop, with
`trigger_alerts` at the end. -/
def update_translations (env : MsgEnv) : MsgOutcome :=
  if env.previousHead = true ∧ env.hasPendingAlert = false ∧
      env.newBase ∉ env.changedFiles then
    ⟨[], [], false, some msgGateSkipLog⟩
  else if env.template = none ∨ env.templateExists = false then
    ⟨[templateMissingAlert env.template], [], true, some msgTemplateLog⟩
  else
    let r := mergeLoop env.translations 0
    ⟨r.1, r.2, true, none⟩

end MsgmergeAddon

namespace GettextCustomizeAddon

/-- The addon configuration: the optional `width` entry (already converted
to an integer, as `int(configuration.get("width", 77))` does). -/
structure Config where
  width : Option Int
deriving DecidableEq

/-- `GettextCustomizeAddon.get_msgmerge_args` (src/weblate/addons/gettext.py
lines 339-342).  The `component` argument of the Python method is unused. -/
def get_msgmerge_args (cfg : Config) : List PyStr :=
  if cfg.width.getD 77 ≠ 77 then [pys "--no-wrap"] else []

/-- `GettextCustomizeAddon.get_xgettext_args` (src/weblate/addons/gettext.py
lines 344-345): delegates to `get_msgmerge_args`. -/
def get_xgettext_args (cfg : Config) : List PyStr :=
  get_msgmerge_args cfg

/-- The claim's description of the argument list: `["--no-wrap"]` exactly
when the effective width differs from 77, else empty.  Stated from the
claim's words, to be compared with the functions above. -/
def customizeArgsClaim (width : Int) : List PyStr :=
  if width ≠ 77 then [pys "--no-wrap"] else []

end GettextCustomizeAddon

/-- A language code that survives `strippedLine` untouched: nonempty, free
of `#`, and equal to its own whitespace-trimmed form. -/
def cleanCode (c : Code) : Prop := c ≠ [] ∧ '#' ∉ c ∧ pyStrip c = c

instance (c : Code) : Decidable (cleanCode c) := by
  unfold cleanCode
  infer_instance

namespace UpdateLinguasAddon

/-- Cleanliness of a whole desired code set. -/
def cleanCodes (codes : Finset Code) : Prop := ∀ c ∈ codes, cleanCode c

instance (codes : Finset Code) : Decidable (cleanCodes codes) := by
  unfold cleanCodes
  infer_instance

/-- A line that the scan of `update_linguas` would delete when the desired
set is `codes`: a non-blank, non-legacy token line whose token is not
desired. -/
def deletable (codes : Finset Code) (l : Line) : Prop :=
  strippedLine l ≠ [] ∧ containsSpace (strippedLine l) = false ∧
    strippedLine l ∉ codes

end UpdateLinguasAddon

/-- The three-translation batch used to witness C9: the middle item fails
with an `UpdateError`, the surrounding items succeed. -/
def claim9Env : MsgmergeAddon.MsgEnv :=
  { previousHead := true
    hasPendingAlert := false
    newBase := pys "template.pot"
    changedFiles := {pys "template.pot"}
    template := some (pys "template.pot")
    templateExists := true
    translations :=
      [⟨false, false, some (pys "a.po"), true, none⟩,
       ⟨false, false, some (pys "b.po"), true,
         some ⟨pys "msgmerge", pys "boom", pys "failed"⟩⟩,
       ⟨false, false, some (pys "c.po"), true, none⟩] }

/-- C3's environment: POTFILES.in absent while every gate condition for
skipping holds (previous revision present, no pending alert, nothing
changed). -/
def claim3Env : XGettextAddon.XgEnv :=
  { output := pys "po/template.pot"
    filesFrom := some (pys "po/POTFILES.in")
    filesFromExists := false
    manifest := []
    configDirectory := []
    cleanup := id
    previousHead := true
    hasPendingAlert := false
    changedFiles := ∅
    resolveOk := fun _ => true
    symlinkError := []
    toolAlerts := []
    outputExists := false
    outputContent := []
    toolOutputContent := [] }

/-- A gate-skip environment with the manifest present, used to witness the
second half of the amended C3. -/
def claim3GateEnv : XGettextAddon.XgEnv :=
  { output := pys "po/template.pot"
    filesFrom := some (pys "po/POTFILES.in")
    filesFromExists := true
    manifest := [pys "template.pot\n"]
    configDirectory := []
    cleanup := id
    previousHead := true
    hasPendingAlert := false
    changedFiles := {pys "readme.md"}
    resolveOk := fun _ => true
    symlinkError := []
    toolAlerts := []
    outputExists := false
    outputContent := []
    toolOutputContent := [] }

/-- `claim3Env`-style gate-field override: the same environment with the
three gate inputs replaced. -/
def withGateInputs (env : XGettextAddon.XgEnv) (ph ha : Bool)
    (cf : Finset FPath) : XGettextAddon.XgEnv :=
  { env with previousHead := ph, hasPendingAlert := ha, changedFiles := cf }

/-- Environment reaching the promotion branch of `post_update`: manifest
present, relevant change, symlinks fine, tool succeeded, template absent. -/
def claim7Env : XGettextAddon.XgEnv :=
  { output := pys "po/template.pot"
    filesFrom := some (pys "po/POTFILES.in")
    filesFromExists := true
    manifest := [pys "template.pot\n"]
    configDirectory := []
    cleanup := id
    previousHead := true
    hasPendingAlert := false
    changedFiles := {pys "template.pot"}
    resolveOk := fun _ => true
    symlinkError := []
    toolAlerts := []
    outputExists := false
    outputContent := []
    toolOutputContent := [pys "x\n"] }

/-- msgmerge environment for C8: only `readme.md` changed, template path is
`template.pot`, no pending alert. -/
def claim8SkipEnv : MsgmergeAddon.MsgEnv :=
  { previousHead := true
    hasPendingAlert := false
    newBase := pys "template.pot"
    changedFiles := {pys "readme.md"}
    template := some (pys "template.pot")
    templateExists := true
    translations := [] }

/-- msgmerge environment for C8: `template.pot` itself changed. -/
def claim8RunEnv : MsgmergeAddon.MsgEnv :=
  { claim8SkipEnv with changedFiles := {pys "template.pot"} }

/-- xgettext environment for C8: manifest lists `template.pot`, only
`readme.md` changed. -/
def claim8XgSkipEnv : XGettextAddon.XgEnv :=
  { output := pys "po/template.pot"
    filesFrom := some (pys "po/POTFILES.in")
    filesFromExists := true
    manifest := [pys "template.pot\n"]
    configDirectory := []
    cleanup := id
    previousHead := true
    hasPendingAlert := false
    changedFiles := {pys "readme.md"}
    resolveOk := fun _ => true
    symlinkError := []
    toolAlerts := []
    outputExists := false
    outputContent := []
    toolOutputContent := [] }

/-- xgettext environment for C8: `template.pot` itself changed. -/
def claim8XgRunEnv : XGettextAddon.XgEnv :=
  { claim8XgSkipEnv with changedFiles := {pys "template.pot"} }

section StringLemmas

theorem bool_eq_false {b : Bool} (h : ¬(b = true)) : b = false := by
  cases b
  · rfl
  · exact absurd rfl h

theorem bool_eq_true {b : Bool} (h : ¬(b = false)) : b = true := by
  cases b
  · exact absurd rfl h
  · rfl

theorem splitHash_eq_self {l : PyStr} (h : '#' ∉ l) : splitHash l = l := by
  induction l with
  | nil => rfl
  | cons c cs ih =>
    have hc : ¬(c = '#') := fun hc => h (hc ▸ List.mem_cons_self c cs)
    have hcs : '#' ∉ cs := fun hm => h (List.mem_cons_of_mem c hm)
    simp [splitHash, hc, ih hcs]

theorem dropWhile_head_false {p : Char → Bool} {a : Char} {as : PyStr}
    (h : List.dropWhile p (a :: as) = a :: as) : p a = false := by
  cases hp : p a with
  | false => rfl
  | true =>
    exfalso
    rw [List.dropWhile_cons, if_pos hp] at h
    have h1 : (List.dropWhile p as).length ≤ as.length :=
      (List.dropWhile_suffix p).length_le
    rw [h] at h1
    simp at h1

theorem dropWhile_append_of_ne {p : Char → Bool} {x : PyStr} (y : PyStr)
    (hx : x.dropWhile p = x) (hne : x ≠ []) :
    (x ++ y).dropWhile p = x ++ y := by
  cases x with
  | nil => exact absurd rfl hne
  | cons a as =>
    have ha := dropWhile_head_false hx
    simp [List.cons_append, List.dropWhile_cons, ha]

theorem rstrip_length_le (x : PyStr) : (rstrip x).length ≤ x.length := by
  have h := (List.dropWhile_suffix (l := x.reverse) pyIsSpace).length_le
  simpa [rstrip] using h

theorem lstrip_eq_self_of_strip {c : PyStr} (h : pyStrip c = c) :
    lstrip c = c := by
  have h1 : (lstrip c).length ≤ c.length := (List.dropWhile_suffix _).length_le
  have h2 : c.length ≤ (lstrip c).length := by
    conv_lhs => rw [← h]
    exact rstrip_length_le (lstrip c)
  have hlen : (lstrip c).length = c.length := le_antisymm h1 h2
  obtain ⟨t, ht⟩ := List.dropWhile_suffix (l := c) pyIsSpace
  have htl : t.length = 0 := by
    have := congrArg List.length ht
    simp at this
    unfold lstrip at hlen
    omega
  rw [List.length_eq_zero] at htl
  subst htl
  simpa [lstrip] using ht

theorem rstrip_eq_self_of_strip {c : PyStr} (h : pyStrip c = c) :
    rstrip c = c := by
  have hl := lstrip_eq_self_of_strip h
  unfold pyStrip at h
  rwa [hl] at h

theorem rev_dropWhile_of_rstrip {c : PyStr} (h : rstrip c = c) :
    c.reverse.dropWhile pyIsSpace = c.reverse := by
  have := congrArg List.reverse h
  rw [rstrip, List.reverse_reverse] at this
  exact this


theorem strippedLine_append_newline {x : PyStr} (hne : x ≠ [])
    (hh : '#' ∉ x) (hl : lstrip x = x) (hr : rstrip x = x) :
    strippedLine (x ++ ['\n']) = x := by
  have hsh : splitHash (x ++ ['\n']) = x ++ ['\n'] := by
    refine splitHash_eq_self ?_
    intro hm
    rcases List.mem_append.1 hm with h1 | h2
    · exact hh h1
    · simp at h2
  have hls : lstrip (x ++ ['\n']) = x ++ ['\n'] :=
    dropWhile_append_of_ne _ hl hne
  have hrs : rstrip (x ++ ['\n']) = x := by
    unfold rstrip
    have hrev : (x ++ ['\n']).reverse = '\n' :: x.reverse := by simp
    rw [hrev, List.dropWhile_cons, if_pos (by decide),
      rev_dropWhile_of_rstrip hr, List.reverse_reverse]
  unfold strippedLine pyStrip
  rw [hsh, hls, hrs]

theorem strippedLine_code {c : Code} (h : cleanCode c) :
    strippedLine (c ++ ['\n']) = c :=
  strippedLine_append_newline h.1 h.2.1
    (lstrip_eq_self_of_strip h.2.2) (rstrip_eq_self_of_strip h.2.2)

theorem joinSpaces_clean : ∀ {cs : List PyStr}, cs ≠ [] →
    (∀ c ∈ cs, cleanCode c) →
    joinSpaces cs ≠ [] ∧ '#' ∉ joinSpaces cs ∧
      lstrip (joinSpaces cs) = joinSpaces cs ∧
      rstrip (joinSpaces cs) = joinSpaces cs
  | [], hne, _ => absurd rfl hne
  | [c], _, h => by
    have hc := h c (List.mem_cons_self c [])
    exact ⟨hc.1, hc.2.1, lstrip_eq_self_of_strip hc.2.2,
      rstrip_eq_self_of_strip hc.2.2⟩
  | c :: d :: ds, _, h => by
    have hc := h c (List.mem_cons_self c (d :: ds))
    have hrec := @joinSpaces_clean (d :: ds) (by simp)
      (fun x hx => h x (List.mem_cons_of_mem c hx))
    obtain ⟨hJne, hJh, _hJl, hJr⟩ := hrec
    have hjoin : joinSpaces (c :: d :: ds) = c ++ ' ' :: joinSpaces (d :: ds) :=
      rfl
    rw [hjoin]
    refine ⟨?_, ?_, ?_, ?_⟩
    · intro habs
      have := congrArg List.length habs
      simp at this
    · intro hm
      rcases List.mem_append.1 hm with h1 | h2
      · exact hc.2.1 h1
      · rcases List.mem_cons.1 h2 with h3 | h4
        · exact absurd h3.symm (by decide)
        · exact hJh h4
    · exact dropWhile_append_of_ne _ (lstrip_eq_self_of_strip hc.2.2) hc.1
    · have hW : (joinSpaces (d :: ds)).reverse.dropWhile pyIsSpace =
          (joinSpaces (d :: ds)).reverse := rev_dropWhile_of_rstrip hJr
      have hWne : (joinSpaces (d :: ds)).reverse ≠ [] := by
        simpa using hJne
      have hrev : (c ++ ' ' :: joinSpaces (d :: ds)).reverse =
          (joinSpaces (d :: ds)).reverse ++ (' ' :: c.reverse) := by
        simp
      unfold rstrip
      rw [hrev, dropWhile_append_of_ne _ hW hWne, ← hrev,
        List.reverse_reverse]

end StringLemmas

namespace UpdateLinguasAddon

theorem mem_sortedCodes {s : Finset Code} {c : Code} :
    c ∈ sortedCodes s ↔ c ∈ s := by
  rcases s with ⟨m, hm⟩
  induction m using Quot.ind with
  | _ l =>
    show c ∈ l.insertionSort (· ≤ ·) ↔ _
    rw [List.mem_insertionSort]
    rfl

theorem sortedCodes_nodup (s : Finset Code) : (sortedCodes s).Nodup := by
  rcases s with ⟨m, hm⟩
  induction m using Quot.ind with
  | _ l =>
    exact ((List.perm_insertionSort _ l).nodup_iff).2 hm

theorem sortedCodes_length (s : Finset Code) :
    (sortedCodes s).length = s.card := by
  rcases s with ⟨m, hm⟩
  induction m using Quot.ind with
  | _ l =>
    exact (List.perm_insertionSort _ l).length_eq

theorem sortedCodes_eq_nil {s : Finset Code} (h : sortedCodes s = []) :
    s = ∅ := by
  have := sortedCodes_length s
  rw [h] at this
  simp at this
  exact Finset.card_eq_zero.1 this.symm

theorem sortedCodes_toFinset (s : Finset Code) :
    (sortedCodes s).toFinset = s := by
  apply Finset.ext
  intro c
  rw [List.mem_toFinset, mem_sortedCodes]


theorem strippedLine_expectedJoin {codes : Finset Code} (h : cleanCodes codes) :
    strippedLine (expectedJoin codes ++ ['\n']) = expectedJoin codes := by
  by_cases hempty : codes = ∅
  · subst hempty
    decide
  · have hs : sortedCodes codes ≠ [] := fun h0 => hempty (sortedCodes_eq_nil h0)
    have hall : ∀ c ∈ sortedCodes codes, cleanCode c := fun c hc =>
      h c (mem_sortedCodes.1 hc)
    obtain ⟨hne, hh, hl, hr⟩ := joinSpaces_clean hs hall
    exact strippedLine_append_newline hne hh hl hr

theorem sortedCodes_empty : sortedCodes (∅ : Finset Code) = [] := rfl

theorem scanLines_nil (codes : Finset Code) :
    scanLines [] codes = ⟨[], codes, false, false⟩ := rfl

theorem ul_nil (codes : Finset Code) :
    update_linguas [] codes =
      (!decide (codes = ∅), (sortedCodes codes).map (fun c => c ++ ['\n'])) :=
  rfl

theorem scanLines_blank {l : Line} (rest : List Line) (codes : Finset Code)
    (h : strippedLine l = []) :
    scanLines (l :: rest) codes =
      ⟨l :: (scanLines rest codes).kept, (scanLines rest codes).codesLeft,
        (scanLines rest codes).removed, (scanLines rest codes).replaced⟩ := by
  simp [scanLines, h]

theorem scanLines_space_eq {l : Line} (rest : List Line) (codes : Finset Code)
    (h1 : strippedLine l ≠ []) (h2 : containsSpace (strippedLine l) = true)
    (h3 : strippedLine l = expectedJoin codes) :
    scanLines (l :: rest) codes = ⟨l :: rest, ∅, false, false⟩ := by
  have h3' : (strippedLine l = expectedJoin codes) = True := eq_true h3
  simp [scanLines, h1, h2, h3']

theorem scanLines_space_ne {l : Line} (rest : List Line) (codes : Finset Code)
    (h1 : strippedLine l ≠ []) (h2 : containsSpace (strippedLine l) = true)
    (h3 : strippedLine l ≠ expectedJoin codes) :
    scanLines (l :: rest) codes =
      ⟨(expectedJoin codes ++ ['\n']) :: rest, ∅, false, true⟩ := by
  simp [scanLines, h1, h2, h3]

theorem scanLines_mem {l : Line} (rest : List Line) (codes : Finset Code)
    (h1 : strippedLine l ≠ []) (h2 : containsSpace (strippedLine l) = false)
    (h3 : strippedLine l ∈ codes) :
    scanLines (l :: rest) codes =
      ⟨l :: (scanLines rest (codes.erase (strippedLine l))).kept,
        (scanLines rest (codes.erase (strippedLine l))).codesLeft,
        (scanLines rest (codes.erase (strippedLine l))).removed,
        (scanLines rest (codes.erase (strippedLine l))).replaced⟩ := by
  simp [scanLines, h1, h2, h3]

theorem scanLines_del {l : Line} (rest : List Line) (codes : Finset Code)
    (h1 : strippedLine l ≠ []) (h2 : containsSpace (strippedLine l) = false)
    (h3 : strippedLine l ∉ codes) :
    scanLines (l :: rest) codes =
      ⟨(scanLines rest codes).kept, (scanLines rest codes).codesLeft,
        true, (scanLines rest codes).replaced⟩ := by
  simp [scanLines, h1, h2, h3]

theorem ul_blank {l : Line} (rest : List Line) (codes : Finset Code)
    (h : strippedLine l = []) :
    update_linguas (l :: rest) codes =
      ((update_linguas rest codes).1, l :: (update_linguas rest codes).2) := by
  simp [update_linguas, scanLines_blank rest codes h]

theorem ul_space_eq {l : Line} (rest : List Line) (codes : Finset Code)
    (h1 : strippedLine l ≠ []) (h2 : containsSpace (strippedLine l) = true)
    (h3 : strippedLine l = expectedJoin codes) :
    update_linguas (l :: rest) codes = (false, l :: rest) := by
  simp [update_linguas, scanLines_space_eq rest codes h1 h2 h3,
    sortedCodes_empty]

theorem ul_space_ne {l : Line} (rest : List Line) (codes : Finset Code)
    (h1 : strippedLine l ≠ []) (h2 : containsSpace (strippedLine l) = true)
    (h3 : strippedLine l ≠ expectedJoin codes) :
    update_linguas (l :: rest) codes =
      (true, (expectedJoin codes ++ ['\n']) :: rest) := by
  simp [update_linguas, scanLines_space_ne rest codes h1 h2 h3,
    sortedCodes_empty]

theorem ul_mem {l : Line} (rest : List Line) (codes : Finset Code)
    (h1 : strippedLine l ≠ []) (h2 : containsSpace (strippedLine l) = false)
    (h3 : strippedLine l ∈ codes) :
    update_linguas (l :: rest) codes =
      ((update_linguas rest (codes.erase (strippedLine l))).1,
        l :: (update_linguas rest (codes.erase (strippedLine l))).2) := by
  simp [update_linguas, scanLines_mem rest codes h1 h2 h3]

theorem ul_del {l : Line} (rest : List Line) (codes : Finset Code)
    (h1 : strippedLine l ≠ []) (h2 : containsSpace (strippedLine l) = false)
    (h3 : strippedLine l ∉ codes) :
    update_linguas (l :: rest) codes =
      (true, (update_linguas rest codes).2) := by
  simp [update_linguas, scanLines_del rest codes h1 h2 h3]


theorem cleanCodes_erase {codes : Finset Code} (h : cleanCodes codes)
    (s : Code) : cleanCodes (codes.erase s) :=
  fun c hc => h c (Finset.mem_of_mem_erase hc)

/-- The output of `update_linguas` never equals a non-empty block of
deletable lines prepended to the input. -/
theorem ul_ne_deletable_extension :
    ∀ (lines : List Line) (codes : Finset Code) (pre : List Line),
      cleanCodes codes → pre ≠ [] → (∀ l ∈ pre, deletable codes l) →
      (update_linguas lines codes).2 ≠ pre ++ lines := by
  intro lines
  induction lines with
  | nil =>
    intro codes pre hclean hne hdel habs
    cases pre with
    | nil => exact hne rfl
    | cons p pre' =>
      have hp : p ∈ (sortedCodes codes).map (fun c => c ++ ['\n']) := by
        have h2 : (update_linguas [] codes).2 =
            (sortedCodes codes).map (fun c => c ++ ['\n']) := rfl
        rw [h2] at habs
        rw [habs]
        simp
      obtain ⟨c, hcmem, hceq⟩ := List.mem_map.1 hp
      have hcc : cleanCode c := hclean c (mem_sortedCodes.1 hcmem)
      have hsp : strippedLine p = c := by
        rw [← hceq]
        exact strippedLine_code hcc
      have hdp := hdel p (List.mem_cons_self _ _)
      exact hdp.2.2 (hsp ▸ mem_sortedCodes.1 hcmem)
  | cons m rest ih =>
    intro codes pre hclean hne hdel habs
    by_cases hb : strippedLine m = []
    · rw [show (update_linguas (m :: rest) codes).2 =
          m :: (update_linguas rest codes).2 by rw [ul_blank rest codes hb]]
        at habs
      cases pre with
      | nil => exact hne rfl
      | cons p pre' =>
        rw [List.cons_append] at habs
        injection habs with hmp _
        have hdp := hdel p (List.mem_cons_self _ _)
        rw [← hmp] at hdp
        exact hdp.1 hb
    · by_cases hsp : containsSpace (strippedLine m) = true
      · by_cases heq : strippedLine m = expectedJoin codes
        · rw [show (update_linguas (m :: rest) codes).2 = m :: rest by
            rw [ul_space_eq rest codes hb hsp heq]] at habs
          have hlen := congrArg List.length habs
          cases pre with
          | nil => exact hne rfl
          | cons p pre' =>
            simp [List.length_append] at hlen
            omega
        · rw [show (update_linguas (m :: rest) codes).2 =
              (expectedJoin codes ++ ['\n']) :: rest by
            rw [ul_space_ne rest codes hb hsp heq]] at habs
          have hlen := congrArg List.length habs
          cases pre with
          | nil => exact hne rfl
          | cons p pre' =>
            simp [List.length_append] at hlen
            omega
      · have hsp' : containsSpace (strippedLine m) = false := bool_eq_false hsp
        by_cases hmem : strippedLine m ∈ codes
        · rw [show (update_linguas (m :: rest) codes).2 =
              m :: (update_linguas rest (codes.erase (strippedLine m))).2 by
            rw [ul_mem rest codes hb hsp' hmem]] at habs
          cases pre with
          | nil => exact hne rfl
          | cons p pre' =>
            rw [List.cons_append] at habs
            injection habs with hmp _
            have hdp := hdel p (List.mem_cons_self _ _)
            rw [← hmp] at hdp
            exact hdp.2.2 hmem
        · rw [show (update_linguas (m :: rest) codes).2 =
              (update_linguas rest codes).2 by
            rw [ul_del rest codes hb hsp' hmem]] at habs
          have habs' : (update_linguas rest codes).2 = (pre ++ [m]) ++ rest := by
            rw [habs]
            simp
          refine ih codes (pre ++ [m]) hclean (by simp) ?_ habs'
          intro l hl
          rcases List.mem_append.1 hl with h1 | h2
          · exact hdel l h1
          · rw [List.mem_singleton.1 h2]
            exact ⟨hb, hsp', hmem⟩

/-- Forward half of the change-flag contract: under clean codes, a raised
change flag means the document really changed. -/
theorem ul_changed_true_ne :
    ∀ (lines : List Line) (codes : Finset Code), cleanCodes codes →
      (update_linguas lines codes).1 = true →
      (update_linguas lines codes).2 ≠ lines := by
  intro lines
  induction lines with
  | nil =>
    intro codes hclean hch habs
    by_cases hempty : codes = ∅
    · subst hempty
      rw [ul_nil] at hch
      simp at hch
    · have h2 : (update_linguas [] codes).2 =
          (sortedCodes codes).map (fun c => c ++ ['\n']) := rfl
      rw [h2] at habs
      rw [List.map_eq_nil_iff] at habs
      exact hempty (sortedCodes_eq_nil habs)
  | cons m rest ih =>
    intro codes hclean hch habs
    by_cases hb : strippedLine m = []
    · rw [ul_blank rest codes hb] at hch habs
      simp only at hch
      injection habs with _ htail
      exact ih codes hclean hch htail
    · by_cases hsp : containsSpace (strippedLine m) = true
      · by_cases heq : strippedLine m = expectedJoin codes
        · rw [ul_space_eq rest codes hb hsp heq] at hch
          simp at hch
        · rw [ul_space_ne rest codes hb hsp heq] at habs
          simp only at habs
          injection habs with hhead _
          have : strippedLine m = expectedJoin codes := by
            rw [← hhead]
            exact strippedLine_expectedJoin hclean
          exact heq this
      · have hsp' : containsSpace (strippedLine m) = false := bool_eq_false hsp
        by_cases hmem : strippedLine m ∈ codes
        · rw [ul_mem rest codes hb hsp' hmem] at hch habs
          simp only at hch
          injection habs with _ htail
          exact ih (codes.erase (strippedLine m))
            (cleanCodes_erase hclean _) hch htail
        · rw [ul_del rest codes hb hsp' hmem] at habs
          simp only at habs
          refine ul_ne_deletable_extension rest codes [m] hclean (by simp)
            ?_ habs
          intro l hl
          rw [List.mem_singleton.1 hl]
          exact ⟨hb, hsp', hmem⟩

/-- Backward half of the change-flag contract: a lowered change flag means
the document is returned untouched (no cleanliness needed). -/
theorem ul_changed_false_eq :
    ∀ (lines : List Line) (codes : Finset Code),
      (update_linguas lines codes).1 = false →
      (update_linguas lines codes).2 = lines := by
  intro lines
  induction lines with
  | nil =>
    intro codes hch
    by_cases hempty : codes = ∅
    · subst hempty
      rfl
    · rw [ul_nil] at hch
      simp [hempty] at hch
  | cons m rest ih =>
    intro codes hch
    by_cases hb : strippedLine m = []
    · rw [ul_blank rest codes hb] at hch ⊢
      simp only at hch ⊢
      rw [ih codes hch]
    · by_cases hsp : containsSpace (strippedLine m) = true
      · by_cases heq : strippedLine m = expectedJoin codes
        · rw [ul_space_eq rest codes hb hsp heq]
        · rw [ul_space_ne rest codes hb hsp heq] at hch
          simp at hch
      · have hsp' : containsSpace (strippedLine m) = false := bool_eq_false hsp
        by_cases hmem : strippedLine m ∈ codes
        · rw [ul_mem rest codes hb hsp' hmem] at hch ⊢
          simp only at hch ⊢
          rw [ih (codes.erase (strippedLine m)) hch]
        · rw [ul_del rest codes hb hsp' hmem] at hch
          simp at hch

/-- Scanning a concatenation when the first part contains no legacy
space-token line splits into two scans, the second starting from the codes
the first one left over. -/
theorem scanLines_append :
    ∀ (X Y : List Line) (S : Finset Code),
      (∀ l ∈ X, containsSpace (strippedLine l) = false) →
      scanLines (X ++ Y) S =
        ⟨(scanLines X S).kept ++ (scanLines Y (scanLines X S).codesLeft).kept,
          (scanLines Y (scanLines X S).codesLeft).codesLeft,
          (scanLines X S).removed ||
            (scanLines Y (scanLines X S).codesLeft).removed,
          (scanLines X S).replaced ||
            (scanLines Y (scanLines X S).codesLeft).replaced⟩ := by
  intro X
  induction X with
  | nil =>
    intro Y S _
    simp [scanLines_nil]
  | cons m rest ih =>
    intro Y S hns
    have hm := hns m (List.mem_cons_self _ _)
    have hrest : ∀ l ∈ rest, containsSpace (strippedLine l) = false :=
      fun l hl => hns l (List.mem_cons_of_mem _ hl)
    by_cases hb : strippedLine m = []
    · rw [List.cons_append, scanLines_blank (rest ++ Y) S hb,
        scanLines_blank rest S hb, ih Y S hrest]
      simp
    · by_cases hmem : strippedLine m ∈ S
      · rw [List.cons_append, scanLines_mem (rest ++ Y) S hb hm hmem,
          scanLines_mem rest S hb hm hmem, ih Y (S.erase (strippedLine m))
            hrest]
        simp
      · rw [List.cons_append, scanLines_del (rest ++ Y) S hb hm hmem,
          scanLines_del rest S hb hm hmem, ih Y S hrest]
        simp

/-- Rescanning the kept lines of a space-free scan with the original codes
reproduces the same kept lines and leftover codes, with no deletions and no
replacement. -/
theorem scanLines_rescan_kept :
    ∀ (lines : List Line) (S : Finset Code),
      (∀ l ∈ lines, containsSpace (strippedLine l) = false) →
      scanLines (scanLines lines S).kept S =
        ⟨(scanLines lines S).kept, (scanLines lines S).codesLeft,
          false, false⟩ := by
  intro lines
  induction lines with
  | nil =>
    intro S _
    simp [scanLines_nil]
  | cons m rest ih =>
    intro S hns
    have hm := hns m (List.mem_cons_self _ _)
    have hrest : ∀ l ∈ rest, containsSpace (strippedLine l) = false :=
      fun l hl => hns l (List.mem_cons_of_mem _ hl)
    by_cases hb : strippedLine m = []
    · rw [scanLines_blank rest S hb]
      simp only
      rw [scanLines_blank _ S hb, ih S hrest]
    · by_cases hmem : strippedLine m ∈ S
      · rw [scanLines_mem rest S hb hm hmem]
        simp only
        rw [scanLines_mem _ S hb hm hmem, ih (S.erase (strippedLine m)) hrest]
      · rw [scanLines_del rest S hb hm hmem]
        simp only
        exact ih S hrest

/-- Every kept line of a space-free scan is one of the input lines. -/
theorem scanLines_kept_subset :
    ∀ (lines : List Line) (S : Finset Code),
      (∀ l ∈ lines, containsSpace (strippedLine l) = false) →
      ∀ l ∈ (scanLines lines S).kept, l ∈ lines := by
  intro lines
  induction lines with
  | nil =>
    intro S _ l hl
    simp [scanLines_nil] at hl
  | cons m rest ih =>
    intro S hns l hl
    have hm := hns m (List.mem_cons_self _ _)
    have hrest : ∀ x ∈ rest, containsSpace (strippedLine x) = false :=
      fun x hx => hns x (List.mem_cons_of_mem _ hx)
    by_cases hb : strippedLine m = []
    · rw [scanLines_blank rest S hb] at hl
      simp only [List.mem_cons] at hl
      rcases hl with h1 | h2
      · exact h1 ▸ List.mem_cons_self _ _
      · exact List.mem_cons_of_mem _ (ih S hrest l h2)
    · by_cases hmem : strippedLine m ∈ S
      · rw [scanLines_mem rest S hb hm hmem] at hl
        simp only [List.mem_cons] at hl
        rcases hl with h1 | h2
        · exact h1 ▸ List.mem_cons_self _ _
        · exact List.mem_cons_of_mem _
            (ih (S.erase (strippedLine m)) hrest l h2)
      · rw [scanLines_del rest S hb hm hmem] at hl
        exact List.mem_cons_of_mem _ (ih S hrest l hl)

/-- The leftover codes of a scan are a subset of the starting codes. -/
theorem scanLines_codesLeft_subset :
    ∀ (lines : List Line) (S : Finset Code),
      (scanLines lines S).codesLeft ⊆ S := by
  intro lines
  induction lines with
  | nil =>
    intro S
    simp [scanLines_nil]
  | cons m rest ih =>
    intro S
    by_cases hb : strippedLine m = []
    · rw [scanLines_blank rest S hb]
      exact ih S
    · by_cases hsp : containsSpace (strippedLine m) = true
      · by_cases heq : strippedLine m = expectedJoin S
        · rw [scanLines_space_eq rest S hb hsp heq]
          simp only
          exact Finset.empty_subset S
        · rw [scanLines_space_ne rest S hb hsp heq]
          simp only
          exact Finset.empty_subset S
      · have hsp' : containsSpace (strippedLine m) = false := bool_eq_false hsp
        by_cases hmem : strippedLine m ∈ S
        · rw [scanLines_mem rest S hb hsp' hmem]
          simp only
          exact (ih (S.erase (strippedLine m))).trans
            (Finset.erase_subset _ S)
        · rw [scanLines_del rest S hb hsp' hmem]
          exact ih S

/-- Scanning the freshly appended code lines of a clean, space-free,
duplicate-free code list that exactly covers the remaining codes consumes
all of them without deletions or replacement. -/
theorem scanLines_appended_codes :
    ∀ (cs : List Code) (S : Finset Code), cs.Nodup →
      (∀ c ∈ cs, cleanCode c ∧ containsSpace c = false) →
      cs.toFinset = S →
      scanLines (cs.map (fun c => c ++ ['\n'])) S =
        ⟨cs.map (fun c => c ++ ['\n']), ∅, false, false⟩ := by
  intro cs
  induction cs with
  | nil =>
    intro S _ _ hS
    rw [← hS]
    simp [scanLines_nil]
  | cons c cs' ih =>
    intro S hnd hcl hS
    have hc := hcl c (List.mem_cons_self _ _)
    have hstr : strippedLine (c ++ ['\n']) = c := strippedLine_code hc.1
    have hcmem : c ∈ S := by
      rw [← hS]
      simp
    have hb : strippedLine (c ++ ['\n']) ≠ [] := by
      rw [hstr]
      exact hc.1.1
    have hsp : containsSpace (strippedLine (c ++ ['\n'])) = false := by
      rw [hstr]
      exact hc.2
    have hmem : strippedLine (c ++ ['\n']) ∈ S := by
      rw [hstr]
      exact hcmem
    rw [List.map_cons, scanLines_mem _ S hb hsp hmem, hstr]
    have hnotin : c ∉ cs' := (List.nodup_cons.1 hnd).1
    have herase : S.erase c = cs'.toFinset := by
      rw [← hS, List.toFinset_cons, Finset.erase_insert]
      rw [List.mem_toFinset]
      exact hnotin
    rw [herase, ih cs'.toFinset (List.nodup_cons.1 hnd).2
      (fun x hx => hcl x (List.mem_cons_of_mem _ hx)) rfl]

theorem ul_fst (X : List Line) (codes : Finset Code) :
    (update_linguas X codes).1 =
      ((scanLines X codes).replaced || (scanLines X codes).removed ||
        !decide ((scanLines X codes).codesLeft = ∅)) := rfl

end UpdateLinguasAddon

namespace UpdateConfigureAddon

theorem syncLinesConf_false_id {e : Line} :
    ∀ {f : TextFile}, (syncLinesConf e f).2 = false →
      (syncLinesConf e f).1 = f := by
  intro f
  induction f with
  | nil => intro _; rfl
  | cons l ls ih =>
    intro h
    by_cases hcm : startsWithChars (pys "#") (pyStrip l) = true
    · rw [syncLinesConf, if_pos hcm] at h ⊢
      simp only at h ⊢
      rw [ih h]
    · rw [syncLinesConf, if_neg hcm] at h ⊢
      by_cases hmk : startsWithChars allLinguasMarker (pyStrip l) = true
      · rw [if_neg (by simp [hmk])] at h ⊢
        by_cases hne : l ≠ e
        · rw [if_pos hne] at h
          simp at h
        · rw [if_neg hne] at h ⊢
          simp only at h ⊢
          rw [ih h]
      · rw [if_pos (by simp [bool_eq_false hmk])] at h ⊢
        simp only at h ⊢
        rw [ih h]

theorem syncLinesConf_true_ne {e : Line} :
    ∀ {f : TextFile}, (syncLinesConf e f).2 = true →
      (syncLinesConf e f).1 ≠ f := by
  intro f
  induction f with
  | nil => intro h; simp [syncLinesConf] at h
  | cons l ls ih =>
    intro h habs
    by_cases hcm : startsWithChars (pys "#") (pyStrip l) = true
    · rw [syncLinesConf, if_pos hcm] at h habs
      simp only at h habs
      injection habs with _ htail
      exact ih h htail
    · rw [syncLinesConf, if_neg hcm] at h habs
      by_cases hmk : startsWithChars allLinguasMarker (pyStrip l) = true
      · rw [if_neg (by simp [hmk])] at h habs
        by_cases hne : l ≠ e
        · rw [if_pos hne] at habs
          simp only at habs
          injection habs with hhead _
          exact hne hhead.symm
        · rw [if_neg hne] at h habs
          simp only at h habs
          injection habs with _ htail
          exact ih h htail
      · rw [if_pos (by simp [bool_eq_false hmk])] at h habs
        simp only at h habs
        injection habs with _ htail
        exact ih h htail

theorem syncFilesConf_written :
    ∀ (files : List TextFile) (e : Line) (a : Bool) (i : Nat),
      i < files.length →
      ((syncFilesConf e a files).1.map ConfFileResult.written)[i]? =
        some (a || (files.take (i + 1)).any
          (fun f => (syncLinesConf e f).2)) := by
  intro files
  induction files with
  | nil =>
    intro e a i hi
    simp at hi
  | cons f fs ih =>
    intro e a i hi
    cases i with
    | zero =>
      simp [syncFilesConf, List.take, List.any_cons]
    | succ n =>
      have hn : n < fs.length := by
        simpa using hi
      rw [syncFilesConf]
      simp only [List.map_cons, List.getElem?_cons_succ]
      rw [ih e (a || (syncLinesConf e f).2) n hn]
      simp [List.take, List.any_cons, Bool.or_assoc]

theorem syncFilesConf_content_unchanged :
    ∀ (files : List TextFile) (e : Line) (a : Bool) (i : Nat) (fi : TextFile),
      files[i]? = some fi → (syncLinesConf e fi).2 = false →
      ((syncFilesConf e a files).1.map ConfFileResult.content)[i]? = some fi := by
  intro files
  induction files with
  | nil =>
    intro e a i fi hget _
    simp at hget
  | cons f fs ih =>
    intro e a i fi hget hch
    cases i with
    | zero =>
      rw [List.getElem?_cons_zero] at hget
      injection hget with hf
      subst hf
      rw [syncFilesConf]
      simp only [List.map_cons, List.getElem?_cons_zero]
      rw [hch, Bool.or_false]
      cases a with
      | false => simp
      | true => simp [syncLinesConf_false_id hch]
    | succ n =>
      rw [List.getElem?_cons_succ] at hget
      rw [syncFilesConf]
      simp only [List.map_cons, List.getElem?_cons_succ]
      exact ih e (a || (syncLinesConf e f).2) n fi hget hch

theorem syncFilesConf_added :
    ∀ (files : List TextFile) (e : Line) (a : Bool),
      (syncFilesConf e a files).2 =
        (a || files.any (fun f => (syncLinesConf e f).2)) := by
  intro files
  induction files with
  | nil =>
    intro e a
    simp [syncFilesConf]
  | cons f fs ih =>
    intro e a
    rw [syncFilesConf]
    simp only
    rw [ih e (a || (syncLinesConf e f).2)]
    simp [List.any_cons, Bool.or_assoc]

theorem syncFilesConf_disk_eq_iff :
    ∀ (files : List TextFile) (e : Line) (a : Bool),
      ((syncFilesConf e a files).1.map ConfFileResult.content = files) ↔
        (∀ f ∈ files, (syncLinesConf e f).2 = false) := by
  intro files
  induction files with
  | nil =>
    intro e a
    simp [syncFilesConf]
  | cons f fs ih =>
    intro e a
    rw [syncFilesConf]
    simp only [List.map_cons]
    constructor
    · intro h
      injection h with hhead htail
      have hch : (syncLinesConf e f).2 = false := by
        cases hb : (syncLinesConf e f).2 with
        | false => rfl
        | true =>
          exfalso
          rw [hb, Bool.or_true] at hhead
          simp at hhead
          exact syncLinesConf_true_ne hb hhead
      intro x hx
      rcases List.mem_cons.1 hx with h1 | h2
      · exact h1 ▸ hch
      · exact (ih e (a || (syncLinesConf e f).2)).1 htail x h2
    · intro hall
      have hch : (syncLinesConf e f).2 = false :=
        hall f (List.mem_cons_self _ _)
      have hid : (syncLinesConf e f).1 = f := syncLinesConf_false_id hch
      have htail := (ih e (a || (syncLinesConf e f).2)).2
        (fun x hx => hall x (List.mem_cons_of_mem _ hx))
      rw [hid, ite_self, htail]

end UpdateConfigureAddon

namespace XGettextAddon

theorem pot_files_same_nil_cons (y : Line) (bs : TextFile) :
    pot_files_same [] (y :: bs) = false := by
  simp [pot_files_same, zipLongest, is_pot_creation_date]

theorem pot_files_same_cons_nil (x : Line) (as : TextFile) :
    pot_files_same (x :: as) [] = false := by
  simp [pot_files_same, zipLongest, is_pot_creation_date]

theorem pot_files_same_cons (x y : Line) (as bs : TextFile) :
    pot_files_same (x :: as) (y :: bs) =
      (((decide ((some x : Option Line) = some y)) ||
        (is_pot_creation_date (some x) && is_pot_creation_date (some y))) &&
      pot_files_same as bs) := rfl

theorem post_update_missing {env : XgEnv}
    (h : env.filesFrom = none ∨ env.filesFromExists = false) :
    post_update env =
      ⟨[manifestMissingAlert env], true, false, false, false,
        originalFinal env, [], some manifestMissingLog⟩ := by
  simp only [post_update]
  rw [if_pos h]

theorem post_update_gateskip {env : XgEnv}
    (h1 : ¬(env.filesFrom = none ∨ env.filesFromExists = false))
    (h2 : env.previousHead = true ∧ env.hasPendingAlert = false ∧
      env.changedFiles ∩ repoFiles env = ∅) :
    post_update env =
      ⟨[], false, false, false, false, originalFinal env, [],
        some gateSkipLog⟩ := by
  simp only [post_update]
  rw [if_neg h1, if_pos h2]

theorem post_update_invalid {env : XgEnv}
    (h1 : ¬(env.filesFrom = none ∨ env.filesFromExists = false))
    (h2 : ¬(env.previousHead = true ∧ env.hasPendingAlert = false ∧
      env.changedFiles ∩ repoFiles env = ∅))
    (h3 : ¬(∀ p ∈ repoFiles env, env.resolveOk p = true)) :
    post_update env =
      ⟨[⟨pys "xgettext", env.output, env.symlinkError⟩], true, false, false,
        false, originalFinal env, [], some invalidListLog⟩ := by
  simp only [post_update]
  rw [if_neg h1, if_neg h2, if_pos h3]

theorem post_update_toolfail {env : XgEnv}
    (h1 : ¬(env.filesFrom = none ∨ env.filesFromExists = false))
    (h2 : ¬(env.previousHead = true ∧ env.hasPendingAlert = false ∧
      env.changedFiles ∩ repoFiles env = ∅))
    (h3 : ∀ p ∈ repoFiles env, env.resolveOk p = true)
    (h4 : env.toolAlerts ≠ []) :
    post_update env =
      ⟨env.toolAlerts, true, true, false, false, originalFinal env,
        dirname env.output, none⟩ := by
  simp only [post_update]
  rw [if_neg h1, if_neg h2, if_neg (not_not_intro h3), if_pos h4]

theorem post_update_nochange {env : XgEnv}
    (h1 : ¬(env.filesFrom = none ∨ env.filesFromExists = false))
    (h2 : ¬(env.previousHead = true ∧ env.hasPendingAlert = false ∧
      env.changedFiles ∩ repoFiles env = ∅))
    (h3 : ∀ p ∈ repoFiles env, env.resolveOk p = true)
    (h4 : env.toolAlerts = [])
    (h5 : env.outputExists = true ∧
      pot_files_same env.toolOutputContent env.outputContent = true) :
    post_update env =
      ⟨[], false, true, false, false, originalFinal env,
        dirname env.output, some noUpdatesLog⟩ := by
  simp only [post_update]
  rw [if_neg h1, if_neg h2, if_neg (not_not_intro h3),
    if_neg (not_not_intro h4), if_pos h5]

theorem post_update_promote {env : XgEnv}
    (h1 : ¬(env.filesFrom = none ∨ env.filesFromExists = false))
    (h2 : ¬(env.previousHead = true ∧ env.hasPendingAlert = false ∧
      env.changedFiles ∩ repoFiles env = ∅))
    (h3 : ∀ p ∈ repoFiles env, env.resolveOk p = true)
    (h4 : env.toolAlerts = [])
    (h5 : ¬(env.outputExists = true ∧
      pot_files_same env.toolOutputContent env.outputContent = true)) :
    post_update env =
      ⟨[], false, true, true, true, some env.toolOutputContent,
        dirname env.output, none⟩ := by
  simp only [post_update]
  rw [if_neg h1, if_neg h2, if_neg (not_not_intro h3),
    if_neg (not_not_intro h4), if_neg h5]

end XGettextAddon

namespace MsgmergeAddon

theorem ut_gateskip {env : MsgEnv}
    (h : env.previousHead = true ∧ env.hasPendingAlert = false ∧
      env.newBase ∉ env.changedFiles) :
    update_translations env = ⟨[], [], false, some msgGateSkipLog⟩ := by
  simp only [update_translations]
  rw [if_pos h]

theorem ut_template {env : MsgEnv}
    (h1 : ¬(env.previousHead = true ∧ env.hasPendingAlert = false ∧
      env.newBase ∉ env.changedFiles))
    (h2 : env.template = none ∨ env.templateExists = false) :
    update_translations env =
      ⟨[templateMissingAlert env.template], [], true, some msgTemplateLog⟩ := by
  simp only [update_translations]
  rw [if_neg h1, if_pos h2]

theorem ut_run {env : MsgEnv}
    (h1 : ¬(env.previousHead = true ∧ env.hasPendingAlert = false ∧
      env.newBase ∉ env.changedFiles))
    (h2 : ¬(env.template = none ∨ env.templateExists = false)) :
    update_translations env =
      ⟨(mergeLoop env.translations 0).1, (mergeLoop env.translations 0).2,
        true, none⟩ := by
  simp only [update_translations]
  rw [if_neg h1, if_neg h2]

theorem mergeLoop_alerts :
    ∀ (ts : List Trans) (i : Nat),
      (mergeLoop ts i).1 = ts.filterMap
        (fun t => if eligible t = true then t.mergeError.map failureAlert
          else none) := by
  intro ts
  induction ts with
  | nil => intro i; rfl
  | cons t ts' ih =>
    intro i
    rw [mergeLoop, List.filterMap_cons]
    cases he : eligible t with
    | true =>
      cases hm : t.mergeError with
      | some f => simp [he, hm, ih (i + 1)]
      | none => simp [he, hm, ih (i + 1)]
    | false => simp [he, ih (i + 1)]

theorem mergeLoop_attempted :
    ∀ (ts : List Trans) (i : Nat),
      (mergeLoop ts i).2 =
        ((List.enumFrom i ts).filter (fun p => eligible p.2)).map Prod.fst := by
  intro ts
  induction ts with
  | nil => intro i; rfl
  | cons t ts' ih =>
    intro i
    rw [mergeLoop, List.enumFrom, List.filter_cons]
    cases he : eligible t with
    | true =>
      cases hm : t.mergeError with
      | some f => simp [he, hm, ih (i + 1)]
      | none => simp [he, hm, ih (i + 1)]
    | false => simp [he, ih (i + 1)]

end MsgmergeAddon

section Claims

open UpdateLinguasAddon UpdateConfigureAddon XGettextAddon MsgmergeAddon
open GettextCustomizeAddon

/-- C10: for every configuration, `GettextCustomizeAddon.get_xgettext_args`
returns exactly the same argument list as `get_msgmerge_args`: the single
argument `["--no-wrap"]` when the configured width differs from 77, and the
empty list otherwise. -/
theorem claim10_customize_args :
    ∀ cfg : Config,
      get_xgettext_args cfg = get_msgmerge_args cfg ∧
      get_msgmerge_args cfg = customizeArgsClaim (cfg.width.getD 77) := by
  intro cfg
  exact ⟨rfl, rfl⟩

/-- C2 (counterexample): on the single line `"en fr de\n"` with desired
codes `{de, en, fr}` — the very codes already on the line — the code
returns `changed=true` and rewrites the line to the sorted `"de en fr\n"`,
because the scan compares the stripped line against the sorted join; the
claim asserts `changed=false` here. -/
theorem claim2_counterexample :
    update_linguas [pys "en fr de\n"] {pys "de", pys "en", pys "fr"} =
      (true, [pys "de en fr\n"]) := by
  decide

/-- C2 (amended): on `["en fr de\n"]` with desired `{fr, de, es}` the
result is `(true, ["de es fr\n"])`; `changed=false` is returned for the
same desired codes only when the line is already in sorted form, i.e. on
`["de en fr\n"]` with desired `{de, en, fr}`. -/
theorem claim2_legacy_single_line :
    update_linguas [pys "en fr de\n"] {pys "fr", pys "de", pys "es"} =
      (true, [pys "de es fr\n"]) ∧
    update_linguas [pys "de en fr\n"] {pys "de", pys "en", pys "fr"} =
      (false, [pys "de en fr\n"]) := by
  constructor
  · decide
  · decide

/-- C6: `pot_files_same` compares the two files position by position up to
the length of the longer file (missing lines read as `none`); it returns
`true` — the files are NOT materially different — exactly when every
position either agrees on both sides or both sides are POT-Creation-Date
header lines; any other mismatch (including a `none` against a line that is
not such a header) makes the files materially different. -/
theorem claim6_pot_files_same_iff :
    ∀ (a b : TextFile), pot_files_same a b = true ↔
      ∀ i : Nat, a[i]? = b[i]? ∨
        (is_pot_creation_date a[i]? = true ∧
         is_pot_creation_date b[i]? = true) := by
  intro a
  induction a with
  | nil =>
    intro b
    cases b with
    | nil =>
      constructor
      · intro _ i
        left
        rfl
      · intro _
        rfl
    | cons y bs =>
      rw [pot_files_same_nil_cons]
      constructor
      · intro h
        exact absurd h (by simp)
      · intro h
        exfalso
        have h0 := h 0
        simp [is_pot_creation_date] at h0
  | cons x as ih =>
    intro b
    cases b with
    | nil =>
      rw [pot_files_same_cons_nil]
      constructor
      · intro h
        exact absurd h (by simp)
      · intro h
        exfalso
        have h0 := h 0
        simp [is_pot_creation_date] at h0
    | cons y bs =>
      rw [pot_files_same_cons]
      constructor
      · intro h i
        rw [Bool.and_eq_true] at h
        obtain ⟨hh, ht⟩ := h
        cases i with
        | zero =>
          simp only [List.getElem?_cons_zero]
          rw [Bool.or_eq_true] at hh
          rcases hh with h1 | h2
          · left
            exact of_decide_eq_true h1
          · right
            rw [Bool.and_eq_true] at h2
            exact h2
        | succ n =>
          simp only [List.getElem?_cons_succ]
          exact (ih bs).1 ht n
      · intro h
        rw [Bool.and_eq_true]
        refine ⟨?_, (ih bs).2 (fun n => ?_)⟩
        · have h0 := h 0
          simp only [List.getElem?_cons_zero] at h0
          rw [Bool.or_eq_true]
          rcases h0 with h1 | h2
          · exact Or.inl (decide_eq_true h1)
          · refine Or.inr ?_
            rw [Bool.and_eq_true]
            exact h2
        · have hn := h (n + 1)
          simp only [List.getElem?_cons_succ] at hn
          exact hn

/-- C1 (counterexample): with desired code set `{"x#y"}` on the one-line
document `["x#y\n"]`, `update_linguas` deletes the line (its stripped token
`"x"` is not a desired code) and then appends `"x#y\n"` for the missing
code, returning `changed=true` although the resulting document equals the
input document — refuting the claimed equivalence. -/
theorem claim1_counterexample :
    (update_linguas [pys "x#y\n"] {pys "x#y"}).1 = true ∧
    (update_linguas [pys "x#y\n"] {pys "x#y"}).2 = [pys "x#y\n"] := by
  constructor
  · decide
  · decide

/-- C1 (amended): `changed=true` is equivalent to the resulting document
differing from the input document, provided every desired code is clean
(nonempty, `#`-free and equal to its own whitespace-trimmed form) — for
`UpdateLinguasAddon.update_linguas`; and unconditionally for
`UpdateConfigureAddon.sync_linguas` over the resulting contents of all
candidate files. -/
theorem claim1_changed_iff_document_differs :
    (∀ (lines : List Line) (codes : Finset Code), cleanCodes codes →
      ((update_linguas lines codes).1 = true ↔
        (update_linguas lines codes).2 ≠ lines)) ∧
    (∀ (codes : List Code) (files : List TextFile),
      ((sync_linguas codes files).2 = true ↔
        (sync_linguas codes files).1.map ConfFileResult.content ≠ files)) := by
  constructor
  · intro lines codes hclean
    constructor
    · exact ul_changed_true_ne lines codes hclean
    · intro hne
      cases hch : (update_linguas lines codes).1 with
      | true => rfl
      | false => exact absurd (ul_changed_false_eq lines codes hch) hne
  · intro codes files
    show ((syncFilesConf (mkExpected codes) false files).2 = true ↔ _)
    rw [syncFilesConf_added files (mkExpected codes) false, Bool.false_or]
    constructor
    · intro hany heq
      rw [show (sync_linguas codes files).1 =
        (syncFilesConf (mkExpected codes) false files).1 from rfl] at heq
      rw [syncFilesConf_disk_eq_iff files (mkExpected codes) false] at heq
      obtain ⟨f, hf, hch⟩ := List.any_eq_true.1 hany
      rw [heq f hf] at hch
      exact Bool.false_ne_true hch
    · intro hne
      cases hany : files.any
          (fun f => (syncLinesConf (mkExpected codes) f).2) with
      | true => rfl
      | false =>
        exfalso
        apply hne
        rw [show (sync_linguas codes files).1 =
          (syncFilesConf (mkExpected codes) false files).1 from rfl]
        rw [syncFilesConf_disk_eq_iff files (mkExpected codes) false]
        intro f hf
        exact bool_eq_false (List.any_eq_false.1 hany f hf)

/-- C1 (witness): the amended equivalence instantiated at the document
`["de\n"]` with desired codes `{"fr"}`. -/
theorem claim1_witness :
    ((update_linguas [pys "de\n"] {pys "fr"}).1 = true ↔
      (update_linguas [pys "de\n"] {pys "fr"}).2 ≠ [pys "de\n"]) :=
  claim1_changed_iff_document_differs.1 [pys "de\n"] {pys "fr"} (by decide)

/-- C5 (counterexample): on `["a b\n", "zz\n"]` with desired codes
`{"a"}`, the first run rewrites the legacy line to `"a\n"` and stops;
the second run no longer sees a legacy line, so it deletes `"zz\n"` and
reports `changed=true` — refuting unconditional idempotence. -/
theorem claim5_counterexample :
    (update_linguas
      (update_linguas [pys "a b\n", pys "zz\n"] {pys "a"}).2 {pys "a"}).1 =
      true := by
  decide

/-- C5 (amended): running `update_linguas` a second time with the same
desired codes returns `changed=false`, provided every desired code is clean
and space-free and no line of the input document carries a legacy
space-separated token (so the single-line branch is never taken). -/
theorem claim5_idempotent_space_free :
    ∀ (lines : List Line) (codes : Finset Code),
      (∀ c ∈ codes, cleanCode c ∧ containsSpace c = false) →
      (∀ l ∈ lines, containsSpace (strippedLine l) = false) →
      (update_linguas (update_linguas lines codes).2 codes).1 = false := by
  intro lines codes hcl hns
  set r := scanLines lines codes with hr
  set A := (sortedCodes r.codesLeft).map (fun c => c ++ ['\n']) with hA2
  have hkeptns : ∀ l ∈ r.kept, containsSpace (strippedLine l) = false :=
    fun l hl => hns l (scanLines_kept_subset lines codes hns l hl)
  have hcs : ∀ c ∈ sortedCodes r.codesLeft,
      cleanCode c ∧ containsSpace c = false :=
    fun c hc => hcl c (scanLines_codesLeft_subset lines codes
      (mem_sortedCodes.1 hc))
  have hA := scanLines_appended_codes (sortedCodes r.codesLeft)
    r.codesLeft (sortedCodes_nodup _) hcs (sortedCodes_toFinset _)
  have hK := scanLines_rescan_kept lines codes hns
  have h2 : (update_linguas lines codes).2 = r.kept ++ A := rfl
  rw [h2, ul_fst]
  have hsplit := scanLines_append r.kept A codes hkeptns
  have c1 : (scanLines r.kept codes).replaced = false := by rw [hK]
  have c2 : (scanLines r.kept codes).removed = false := by rw [hK]
  have c3 : (scanLines r.kept codes).codesLeft = r.codesLeft := by rw [hK]
  have d1 : (scanLines A r.codesLeft).replaced = false := by rw [hA]
  have d2 : (scanLines A r.codesLeft).removed = false := by rw [hA]
  have d3 : (scanLines A r.codesLeft).codesLeft = ∅ := by rw [hA]
  have e1 : (scanLines (r.kept ++ A) codes).replaced = false := by
    rw [hsplit]
    show ((scanLines r.kept codes).replaced ||
      (scanLines A (scanLines r.kept codes).codesLeft).replaced) = false
    rw [c1, c3, d1]
    rfl
  have e2 : (scanLines (r.kept ++ A) codes).removed = false := by
    rw [hsplit]
    show ((scanLines r.kept codes).removed ||
      (scanLines A (scanLines r.kept codes).codesLeft).removed) = false
    rw [c2, c3, d2]
    rfl
  have e3 : (scanLines (r.kept ++ A) codes).codesLeft = ∅ := by
    rw [hsplit]
    show (scanLines A (scanLines r.kept codes).codesLeft).codesLeft = ∅
    rw [c3, d3]
  rw [e1, e2, e3]
  simp

/-- C5 (witness): the amended idempotence instantiated at the document
`["de\n", "# x\n"]` with desired codes `{"fr"}`. -/
theorem claim5_witness :
    (update_linguas
      (update_linguas [pys "de\n", pys "# x\n"] {pys "fr"}).2 {pys "fr"}).1 =
      false :=
  claim5_idempotent_space_free [pys "de\n", pys "# x\n"] {pys "fr"}
    (by decide) (by decide)

/-- C4 (counterexample): with desired codes `["de"]` over two candidate
files — the first containing `ALL_LINGUAS="x"` (needs a change), the second
containing no `ALL_LINGUAS` line at all (needs no change) — the second file
is written back (`written = true`) although none of its lines changed,
because `sync_linguas` tests the accumulated `added` flag, refuting
per-file independence of the write decision. -/
theorem claim4_counterexample :
    sync_linguas [pys "de"] [[pys "ALL_LINGUAS=\"x\"\n"], [pys "other\n"]] =
      ([⟨[pys "ALL_LINGUAS=\"de\"\n"], true⟩, ⟨[pys "other\n"], true⟩],
        true) ∧
    (syncLinesConf (mkExpected [pys "de"]) [pys "other\n"]).2 = false := by
  constructor
  · decide
  · decide

/-- C4 (amended): candidate file `i` is written back exactly when some file
`j ≤ i` needed a change (the `added` flag accumulates across files); a file
needing no change is therefore skipped only while no earlier file changed,
and when it is written anyway its content is written back unchanged. -/
theorem claim4_write_uses_accumulated_flag :
    ∀ (codes : List Code) (files : List TextFile) (i : Nat),
      i < files.length →
      (((sync_linguas codes files).1.map ConfFileResult.written)[i]? =
        some ((files.take (i + 1)).any
          (fun f => (syncLinesConf (mkExpected codes) f).2)) ∧
      (∀ fi : TextFile, files[i]? = some fi →
        (syncLinesConf (mkExpected codes) fi).2 = false →
        ((sync_linguas codes files).1.map ConfFileResult.content)[i]? =
          some fi)) := by
  intro codes files i hi
  constructor
  · have h := syncFilesConf_written files (mkExpected codes) false i hi
    rw [Bool.false_or] at h
    exact h
  · intro fi hget hch
    exact syncFilesConf_content_unchanged files (mkExpected codes) false i fi
      hget hch

/-- C4 (witness): the amended statement instantiated at the two-file run of
the counterexample, at index 1. -/
theorem claim4_witness :
    ((sync_linguas [pys "de"]
        [[pys "ALL_LINGUAS=\"x\"\n"], [pys "other\n"]]).1.map
      ConfFileResult.written)[1]? =
      some (([[pys "ALL_LINGUAS=\"x\"\n"], [pys "other\n"]].take 2).any
        (fun f => (syncLinesConf (mkExpected [pys "de"]) f).2)) :=
  (claim4_write_uses_accumulated_flag [pys "de"]
    [[pys "ALL_LINGUAS=\"x\"\n"], [pys "other\n"]] 1 (by decide)).1


/-- C9: when `update_translations` reaches the merge loop (gate passed,
template present), the attempted indices are exactly the eligible
translations in order — independent of which merges fail — and the alert
list holds exactly one alert per failing eligible item; the run always ends
with `trigger_alerts` and never aborts. -/
theorem claim9_failure_isolation :
    ∀ env : MsgmergeAddon.MsgEnv,
      ¬(env.previousHead = true ∧ env.hasPendingAlert = false ∧
        env.newBase ∉ env.changedFiles) →
      ¬(env.template = none ∨ env.templateExists = false) →
      ((update_translations env).attempted =
        ((List.enumFrom 0 env.translations).filter
          (fun p => eligible p.2)).map Prod.fst ∧
       (update_translations env).alerts =
        env.translations.filterMap
          (fun t => if eligible t = true then t.mergeError.map failureAlert
            else none) ∧
       (update_translations env).triggered = true ∧
       (update_translations env).skipLog = none) := by
  intro env h1 h2
  rw [ut_run h1 h2]
  exact ⟨mergeLoop_attempted env.translations 0,
    mergeLoop_alerts env.translations 0, rfl, rfl⟩

/-- C9 (witness): the batch `claim9Env` — item 1 fails, yet items 0, 1 and
2 are all attempted and exactly one alert is recorded. -/
theorem claim9_witness :
    (update_translations claim9Env).attempted =
      ((List.enumFrom 0 claim9Env.translations).filter
        (fun p => eligible p.2)).map Prod.fst ∧
    (update_translations claim9Env).alerts =
      claim9Env.translations.filterMap
        (fun t => if eligible t = true then t.mergeError.map failureAlert
          else none) ∧
    (update_translations claim9Env).triggered = true ∧
    (update_translations claim9Env).skipLog = none :=
  claim9_failure_isolation claim9Env (by decide) (by decide)


/-- C3 (counterexample): in `claim3Env` the gate would skip (previous
revision present, no pending alert, no file changed), yet because
POTFILES.in is absent `post_update` emits the ManifestMissing alert — the
manifest check runs before the gate, refuting the claimed ordering and the
claimed absence of the alert. -/
theorem claim3_counterexample :
    claim3Env.previousHead = true ∧ claim3Env.hasPendingAlert = false ∧
    claim3Env.changedFiles = ∅ ∧ claim3Env.filesFromExists = false ∧
    (post_update claim3Env).alerts = [manifestMissingAlert claim3Env] ∧
    (post_update claim3Env).skipLog = some manifestMissingLog := by
  refine ⟨rfl, rfl, rfl, rfl, ?_, ?_⟩
  · decide
  · decide


/-- C3 (amended): `post_update` checks for a missing manifest before the
change gate: when the manifest is absent it emits the ManifestMissing alert
and stops, whatever the gate inputs are (the outcome does not depend on
them at all); the gate is evaluated only when the manifest exists, and when
it then says skip, the run stops with no alert, no tool run and the
template untouched. -/
theorem claim3_manifest_checked_before_gate :
    (∀ env : XgEnv, (env.filesFrom = none ∨ env.filesFromExists = false) →
      ((post_update env).alerts = [manifestMissingAlert env] ∧
       (post_update env).ranTool = false ∧
       (post_update env).replaced = false ∧
       (post_update env).committed = false ∧
       (post_update env).finalContent = originalFinal env ∧
       ∀ (ph ha : Bool) (cf : Finset FPath),
         post_update (withGateInputs env ph ha cf) = post_update env)) ∧
    (∀ env : XgEnv, env.filesFrom ≠ none → env.filesFromExists = true →
      env.previousHead = true → env.hasPendingAlert = false →
      env.changedFiles ∩ repoFiles env = ∅ →
      ((post_update env).alerts = [] ∧ (post_update env).ranTool = false ∧
       (post_update env).replaced = false ∧
       (post_update env).committed = false ∧
       (post_update env).finalContent = originalFinal env)) := by
  constructor
  · intro env hm
    rw [post_update_missing hm]
    refine ⟨rfl, rfl, rfl, rfl, rfl, ?_⟩
    intro ph ha cf
    have hm' : (withGateInputs env ph ha cf).filesFrom = none ∨
        (withGateInputs env ph ha cf).filesFromExists = false := hm
    have e1 : manifestMissingAlert (withGateInputs env ph ha cf) =
        manifestMissingAlert env := rfl
    have e2 : originalFinal (withGateInputs env ph ha cf) =
        originalFinal env := rfl
    rw [post_update_missing hm', e1, e2]
  · intro env hf he hp ha hint
    have hm : ¬(env.filesFrom = none ∨ env.filesFromExists = false) := by
      rintro (h1 | h2)
      · exact hf h1
      · rw [he] at h2
        exact absurd h2 (by decide)
    rw [post_update_gateskip hm ⟨hp, ha, hint⟩]
    exact ⟨rfl, rfl, rfl, rfl, rfl⟩

/-- C3 (witness): the amended statement at `claim3Env` (manifest absent,
alert emitted) and at `claim3GateEnv` (manifest present, gate skip, no
alert). -/
theorem claim3_witness :
    (post_update claim3Env).alerts = [manifestMissingAlert claim3Env] ∧
    (post_update claim3GateEnv).alerts = [] :=
  ⟨(claim3_manifest_checked_before_gate.1 claim3Env (by decide)).1,
   (claim3_manifest_checked_before_gate.2 claim3GateEnv (by decide)
     (by decide) (by decide) (by decide) (by decide)).1⟩


/-- C7: once `post_update` reaches the tool stage, the temporary output
lives in `dirname(output)`, and the final template is replaced exactly when
the tool produced no alerts and (the template does not exist or
`pot_files_same` reports a material difference); the commit happens exactly
when the replacement does, and without a replacement the template content
is left untouched. -/
theorem claim7_promotion_guard :
    ∀ env : XgEnv,
      ¬(env.filesFrom = none ∨ env.filesFromExists = false) →
      ¬(env.previousHead = true ∧ env.hasPendingAlert = false ∧
        env.changedFiles ∩ repoFiles env = ∅) →
      (∀ p ∈ repoFiles env, env.resolveOk p = true) →
      ((post_update env).ranTool = true ∧
       (post_update env).tmpDir = dirname env.output ∧
       ((post_update env).replaced = true ↔
         (env.toolAlerts = [] ∧ (env.outputExists = false ∨
           pot_files_same env.toolOutputContent env.outputContent =
             false))) ∧
       (post_update env).committed = (post_update env).replaced ∧
       ((post_update env).replaced = false →
         (post_update env).finalContent = originalFinal env)) := by
  intro env hm hg hs
  by_cases hta : env.toolAlerts = []
  · by_cases hn : env.outputExists = true ∧
        pot_files_same env.toolOutputContent env.outputContent = true
    · rw [post_update_nochange hm hg hs hta hn]
      refine ⟨rfl, rfl, ?_, rfl, fun _ => rfl⟩
      constructor
      · intro h
        exact Bool.noConfusion h
      · rintro ⟨_, h2⟩
        rcases h2 with h3 | h4
        · rw [hn.1] at h3
          exact absurd h3 (by decide)
        · rw [hn.2] at h4
          exact absurd h4 (by decide)
    · rw [post_update_promote hm hg hs hta hn]
      refine ⟨rfl, rfl, ?_, rfl, ?_⟩
      · constructor
        · intro _
          refine ⟨hta, ?_⟩
          by_cases hex : env.outputExists = true
          · right
            by_cases hsame : pot_files_same env.toolOutputContent
                env.outputContent = true
            · exact absurd ⟨hex, hsame⟩ hn
            · exact bool_eq_false hsame
          · left
            exact bool_eq_false hex
        · intro _
          rfl
      · intro h
        exact Bool.noConfusion h
  · rw [post_update_toolfail hm hg hs hta]
    refine ⟨rfl, rfl, ?_, rfl, fun _ => rfl⟩
    constructor
    · intro h
      exact Bool.noConfusion h
    · rintro ⟨h1, _⟩
      exact absurd h1 hta

/-- C7 (witness): the promotion guard at `claim7Env`, where the template is
absent and the tool succeeded, so the replacement and commit happen. -/
theorem claim7_witness :
    (post_update claim7Env).ranTool = true ∧
    (post_update claim7Env).tmpDir = dirname claim7Env.output ∧
    ((post_update claim7Env).replaced = true ↔
      (claim7Env.toolAlerts = [] ∧ (claim7Env.outputExists = false ∨
        pot_files_same claim7Env.toolOutputContent claim7Env.outputContent =
          false))) ∧
    (post_update claim7Env).committed = (post_update claim7Env).replaced ∧
    ((post_update claim7Env).replaced = false →
      (post_update claim7Env).finalContent = originalFinal claim7Env) :=
  claim7_promotion_guard claim7Env (by decide) (by decide) (by decide)


/-- C8: the change gate skips exactly when a previous revision exists, no
pending alert of the operation's kind exists, and no dependency file
changed — for msgmerge the dependency test is membership of the new-base
path in the changed files, for xgettext it is a non-empty intersection of
the manifest-derived file set with the changed files (and the gate is only
reached with the manifest present); in particular `{"template.pot"}`
against changed `{"readme.md"}` skips, and against `{"template.pot"}`
proceeds, in both orchestrators. -/
theorem claim8_change_gate_policy :
    (∀ env : MsgmergeAddon.MsgEnv,
      ((update_translations env).skipLog = some msgGateSkipLog ↔
        (env.previousHead = true ∧ env.hasPendingAlert = false ∧
          env.newBase ∉ env.changedFiles))) ∧
    (∀ env : XgEnv,
      ((post_update env).skipLog = some gateSkipLog ↔
        (env.filesFrom ≠ none ∧ env.filesFromExists = true ∧
          env.previousHead = true ∧ env.hasPendingAlert = false ∧
          env.changedFiles ∩ repoFiles env = ∅))) ∧
    (update_translations claim8SkipEnv).skipLog = some msgGateSkipLog ∧
    (update_translations claim8RunEnv).skipLog = none ∧
    (post_update claim8XgSkipEnv).skipLog = some gateSkipLog ∧
    (post_update claim8XgRunEnv).skipLog ≠ some gateSkipLog := by
  refine ⟨?_, ?_, by decide, by decide, by decide, by decide⟩
  · intro env
    by_cases hg : env.previousHead = true ∧ env.hasPendingAlert = false ∧
        env.newBase ∉ env.changedFiles
    · rw [ut_gateskip hg]
      exact ⟨fun _ => hg, fun _ => rfl⟩
    · by_cases ht : env.template = none ∨ env.templateExists = false
      · rw [ut_template hg ht]
        constructor
        · intro h
          exact absurd (Option.some.inj h) (by decide)
        · intro h
          exact absurd h hg
      · rw [ut_run hg ht]
        constructor
        · intro h
          exact Option.noConfusion h
        · intro h
          exact absurd h hg
  · intro env
    by_cases hmiss : env.filesFrom = none ∨ env.filesFromExists = false
    · rw [post_update_missing hmiss]
      constructor
      · intro h
        exact absurd (Option.some.inj h) (by decide)
      · rintro ⟨hf, he, _⟩
        rcases hmiss with h1 | h2
        · exact (hf h1).elim
        · rw [he] at h2
          exact absurd h2 (by decide)
    · by_cases hg : env.previousHead = true ∧ env.hasPendingAlert = false ∧
          env.changedFiles ∩ repoFiles env = ∅
      · rw [post_update_gateskip hmiss hg]
        constructor
        · intro _
          push_neg at hmiss
          exact ⟨hmiss.1, bool_eq_true hmiss.2, hg.1, hg.2.1, hg.2.2⟩
        · intro _
          rfl
      · by_cases hs : ∀ p ∈ repoFiles env, env.resolveOk p = true
        · by_cases hta : env.toolAlerts = []
          · by_cases hn : env.outputExists = true ∧
                pot_files_same env.toolOutputContent env.outputContent = true
            · rw [post_update_nochange hmiss hg hs hta hn]
              constructor
              · intro h
                exact absurd (Option.some.inj h) (by decide)
              · rintro ⟨_, _, h3, h4, h5⟩
                exact absurd ⟨h3, h4, h5⟩ hg
            · rw [post_update_promote hmiss hg hs hta hn]
              constructor
              · intro h
                exact Option.noConfusion h
              · rintro ⟨_, _, h3, h4, h5⟩
                exact absurd ⟨h3, h4, h5⟩ hg
          · rw [post_update_toolfail hmiss hg hs hta]
            constructor
            · intro h
              exact Option.noConfusion h
            · rintro ⟨_, _, h3, h4, h5⟩
              exact absurd ⟨h3, h4, h5⟩ hg
        · rw [post_update_invalid hmiss hg hs]
          constructor
          · intro h
            exact absurd (Option.some.inj h) (by decide)
          · rintro ⟨_, _, h3, h4, h5⟩
            exact absurd ⟨h3, h4, h5⟩ hg

end Claims


